import Mathlib

/-
Verification of the job-search engine (jobs.service.ts: searchJobs and
findRelatedJobTitles) against its natural-language specification.

The TypeScript service builds a Postgres query; here the store is a list of
JobPosting rows and the generated SQL filter / score / ORDER BY / LIMIT /
OFFSET clauses are translated into Lean functions over those rows.
`X ILIKE '%p%'` (for a pattern `p` free of wildcard metacharacters, which is
how the service always builds patterns) is case-insensitive substring
containment, with SQL NULL treated as a non-match.  The synonym expander
`expandTokens` is imported by the service from a module that is not part of
the sources, so every definition and theorem is parameterised over an
arbitrary expansion function `expand`.
-/

/-- Char-list version of "needle is an initial segment of hay". -/
def leadMatch : List Char → List Char → Bool
  | [], _ => true
  | _ :: _, [] => false
  | a :: as, b :: bs => a == b && leadMatch as bs

/-- Char-list version of "needle occurs as a contiguous segment of hay". -/
def subMatch (needle : List Char) : List Char → Bool
  | [] => leadMatch needle []
  | c :: cs => leadMatch needle (c :: cs) || subMatch needle cs

/-- JavaScript `hay.includes(needle)`: substring containment. -/
def strContains (hay needle : String) : Bool :=
  subMatch needle.toList hay.toList

/-- ASCII lowercasing (JavaScript `toLowerCase`, Postgres ILIKE folding, for
the ASCII data at hand), computed characterwise. -/
def lowerStr (s : String) : String :=
  String.mk (s.toList.map Char.toLower)

/-- Whitespace trimming from both ends (JavaScript `trim`). -/
def trimStr (s : String) : String :=
  String.mk
    (((s.toList.dropWhile Char.isWhitespace).reverse.dropWhile
        Char.isWhitespace).reverse)

/-- Integer parse of a decimal string, `none` on anything else (stands in for
`parseFloat` / `CAST AS NUMERIC` on the integral values the claims need). -/
def digitsVal (cs : List Char) : Option Nat :=
  if cs.isEmpty then none
  else
    cs.foldl
      (fun acc c =>
        match acc with
        | none => none
        | some n => if c.isDigit then some (n * 10 + (c.toNat - 48)) else none)
      (some 0)

/-- Signed decimal integer parse. -/
def parseIntStr (s : String) : Option Int :=
  match s.toList with
  | '-' :: rest => (digitsVal rest).map (fun n => -(n : Int))
  | l => (digitsVal l).map (fun n => (n : Int))

/-- Case-insensitive substring containment (both sides lowercased). -/
def containsCI (hay needle : String) : Bool :=
  strContains (lowerStr hay) (lowerStr needle)

/-- SQL `field ILIKE '%pat%'` where `field` may be NULL: a NULL field never
matches; otherwise case-insensitive substring containment. -/
def ilike (field : Option String) (pat : String) : Bool :=
  match field with
  | some s => containsCI s pat
  | none => false

/-- Characters kept by the service's tokenizer split `[^a-z0-9+]+` applied to
the lowercased query: ASCII lowercase letters, digits and plus. -/
def tokChar (c : Char) : Bool :=
  c.isLower || c.isDigit || c == '+'

/-- Maximal runs of characters satisfying `p` (accumulator holds the current
run reversed).  Mirrors JavaScript `split` on the complementary separator
regex followed by dropping empty pieces. -/
def runsAux (p : Char → Bool) (cur : List Char) : List Char → List (List Char)
  | [] => if cur.isEmpty then [] else [cur.reverse]
  | c :: cs =>
    if p c then runsAux p (c :: cur) cs
    else if cur.isEmpty then runsAux p [] cs
    else cur.reverse :: runsAux p [] cs

/-- `rawQuery.toLowerCase().split(/[^a-z0-9+]+/i).map(trim).filter(Boolean)`:
the maximal runs of token characters of the lowercased string. -/
def tokenRuns (s : String) : List String :=
  (runsAux tokChar [] (lowerStr s).toList).map String.mk

/-- Whitespace-separated words (used by the keyword phase of
`findRelatedJobTitles`). -/
def wsWords (s : String) : List String :=
  (runsAux (fun c => !c.isWhitespace) [] s.toList).map String.mk

/-- JavaScript `s.split(/\s+/)` for an already trimmed `s`: the empty string
yields `[""]`, otherwise the whitespace-separated words. -/
def jsSplitWS (s : String) : List String :=
  if s = "" then [""] else wsWords s

/-- JSON values stored in the `data` jsonb column.  Numbers are modelled as
integers (the claims under verification do not hinge on fractional values). -/
inductive JsonVal
  | str (s : String)
  | num (n : Int)
  | boolean (b : Bool)
  | null
deriving DecidableEq, Repr

/-- jsonb `->>` rendering of a value as text; a JSON null renders as SQL
NULL. -/
def jsonText : JsonVal → Option String
  | JsonVal.str s => some s
  | JsonVal.num n => some (toString n)
  | JsonVal.boolean b => some (if b then "true" else "false")
  | JsonVal.null => none

/-- `data->>'k'`: text of the value at key `k`, SQL NULL when absent. -/
def dataText (d : List (String × JsonVal)) (k : String) : Option String :=
  match d.lookup k with
  | some v => jsonText v
  | none => none

/-- A row of the `job_postings` table (entity `JobPosting`): the columns the
search reads.  `created_at` is a timestamp modelled as an integer. -/
structure JobPosting where
  id : String
  job_posting_id : String
  data : List (String × JsonVal)
  isEmailAvailable : Option Bool
  resume_email : Option String
  created_at : Int
deriving DecidableEq, Repr

/-- The static catalogue of canonical job titles (constant `JOB_TITLES`). -/
def JOB_TITLES : List String :=
  ["Software Engineer", "Frontend Developer", "Backend Developer",
   "Full Stack Developer", "DevOps Engineer", "Mobile Developer",
   "iOS Developer", "Android Developer", "Data Engineer", "Cloud Engineer",
   "Site Reliability Engineer", "QA Engineer", "Systems Architect",
   "Embedded Systems Engineer", "Game Developer", "Machine Learning Engineer",
   "Data Scientist", "Data Analyst", "Business Analyst",
   "Business Intelligence Developer", "AI Researcher", "Statistician",
   "Database Administrator", "Product Manager", "Project Manager",
   "Product Owner", "Scrum Master", "UX Designer", "UI Designer",
   "Product Designer", "Graphic Designer", "Web Designer", "Art Director",
   "Creative Director", "Marketing Manager", "Social Media Manager",
   "Content Strategist", "SEO Specialist", "Digital Marketing Specialist",
   "Sales Representative", "Account Manager", "Account Executive",
   "Customer Success Manager", "Sales Engineer", "IT Support Specialist",
   "System Administrator", "Network Engineer", "Cybersecurity Analyst",
   "Information Security Manager", "Help Desk Technician",
   "Human Resources Manager", "Recruiter", "Talent Acquisition Specialist",
   "Operations Manager", "Office Manager", "Executive Assistant",
   "Financial Analyst", "Accountant", "Auditor", "Controller",
   "Finance Manager", "Practical Nurse", "Registered Nurse",
   "Nurse Practitioner", "Nurse Manager", "Nurse Educator",
   "Nurse Administrator", "Nurse Consultant", "Nurse Director",
   "Nurse Leader", "Nurse Specialist"]

/-- The special keyword-to-titles mappings (`specialMappings`), in object
insertion order. -/
def SPECIAL_MAPPINGS : List (String × List String) :=
  [("software",
    ["Software Engineer", "Frontend Developer", "Backend Developer",
     "Full Stack Developer", "DevOps Engineer", "Mobile Developer",
     "iOS Developer", "Android Developer", "Data Engineer", "Cloud Engineer",
     "Site Reliability Engineer", "QA Engineer", "Systems Architect",
     "Embedded Systems Engineer", "Game Developer",
     "Machine Learning Engineer"]),
   ("engineer",
    ["Software Engineer", "DevOps Engineer", "Data Engineer",
     "Cloud Engineer", "Site Reliability Engineer", "QA Engineer",
     "Systems Architect", "Embedded Systems Engineer",
     "Machine Learning Engineer", "Sales Engineer", "Network Engineer"]),
   ("developer",
    ["Frontend Developer", "Backend Developer", "Full Stack Developer",
     "Mobile Developer", "iOS Developer", "Android Developer",
     "Game Developer", "Business Intelligence Developer"]),
   ("frontend",
    ["Frontend Developer", "Full Stack Developer", "Web Designer",
     "UI Designer", "UX Designer"]),
   ("backend",
    ["Backend Developer", "Full Stack Developer", "Software Engineer",
     "Data Engineer"]),
   ("nurse",
    ["Practical Nurse", "Registered Nurse", "Nurse Practitioner",
     "Nurse Manager", "Nurse Educator", "Nurse Administrator",
     "Nurse Consultant", "Nurse Director", "Nurse Leader",
     "Nurse Specialist"]),
   ("nursing",
    ["Practical Nurse", "Registered Nurse", "Nurse Practitioner",
     "Nurse Manager", "Nurse Educator", "Nurse Administrator",
     "Nurse Consultant", "Nurse Director", "Nurse Leader",
     "Nurse Specialist"]),
   ("data",
    ["Data Scientist", "Data Analyst", "Data Engineer", "Business Analyst",
     "Business Intelligence Developer", "Statistician",
     "Database Administrator"]),
   ("product", ["Product Manager", "Product Owner", "Product Designer"]),
   ("design",
    ["UX Designer", "UI Designer", "Product Designer", "Graphic Designer",
     "Web Designer", "Art Director", "Creative Director"]),
   ("marketing",
    ["Marketing Manager", "Social Media Manager", "Content Strategist",
     "SEO Specialist", "Digital Marketing Specialist"]),
   ("sales",
    ["Sales Representative", "Account Manager", "Account Executive",
     "Customer Success Manager", "Sales Engineer"])]

/-- `if (!related.includes(title)) related.push(title)`. -/
def addIfAbsent (acc : List String) (t : String) : List String :=
  if t ∈ acc then acc else acc ++ [t]

/-- The keyword phase's per-title test: some whitespace keyword of length at
least 3 occurs in the lowercased title. -/
def keywordHit (keywords : List String) (title : String) : Bool :=
  keywords.any (fun k => 3 ≤ k.length && strContains (lowerStr title) k)

/-- `findRelatedJobTitles(query)`: direct substring matches pushed in
catalogue order, then keyword matches, then special-mapping matches, the
latter two deduplicated against what was already pushed. -/
def findRelatedJobTitles (query : String) : List String :=
  let queryLower := trimStr (lowerStr query)
  let direct := JOB_TITLES.filter (fun t => strContains (lowerStr t) queryLower)
  let keywords := jsSplitWS queryLower
  let afterKw := JOB_TITLES.foldl
    (fun acc t => if keywordHit keywords t then addIfAbsent acc t else acc)
    direct
  SPECIAL_MAPPINGS.foldl
    (fun acc kv =>
      if strContains queryLower kv.1 then kv.2.foldl addIfAbsent acc else acc)
    afterKw

/-- The parameters accepted by `searchJobs` (`JobSearchParams` plus
`limit`/`offset`); absent values are `none`. -/
structure SearchParams where
  query : Option String := none
  location : Option String := none
  isEmailAvailable : Option Bool := none
  limit : Option Int := none
  offset : Option Int := none
deriving DecidableEq, Repr

/-- `const rawQuery = (params.query ?? '').trim()`. -/
def rawQueryOf (p : SearchParams) : String :=
  trimStr (p.query.getD "")

/-- `const rawLocation = (params.location ?? '').trim()`. -/
def rawLocationOf (p : SearchParams) : String :=
  trimStr (p.location.getD "")

/-- `Math.min(Math.max(params.limit ?? 25, 1), 100)`. -/
def clampLimit (l : Option Int) : Int :=
  min (max (l.getD 25) 1) 100

/-- `Math.max(params.offset ?? 0, 0)`. -/
def clampOffset (o : Option Int) : Int :=
  max (o.getD 0) 0

/-- The short-circuit guard: nothing provided at all, so the service returns
`{count: 0, results: []}` without building a query. -/
def guardEmpty (p : SearchParams) : Bool :=
  rawQueryOf p == "" && rawLocationOf p == "" && p.isEmailAvailable.isNone

/-- The base tokens fed into the synonym expander. -/
def baseTokens (rawQuery : String) : List String :=
  tokenRuns rawQuery

/-- `rawQuery ? findRelatedJobTitles(rawQuery) : []`. -/
def relatedOf (p : SearchParams) : List String :=
  if rawQueryOf p ≠ "" then findRelatedJobTitles (rawQueryOf p) else []

/-- `expandTokens(baseTokens)` with the (missing-from-source) expander held
abstract as `expand`. -/
def tokensOf (expand : List String → List String) (p : SearchParams) :
    List String :=
  expand (baseTokens (rawQueryOf p))

/-- The ILIKE patterns of the mandatory `job_title` gate, in the order the
service pushes them: the raw-query phrase (when the query is non-empty), then
the related titles, then the expanded tokens. -/
def gatePatterns (expand : List String → List String) (p : SearchParams) :
    List String :=
  (if rawQueryOf p ≠ "" then [rawQueryOf p] else []) ++
    relatedOf p ++ tokensOf expand p

/-- The `job_title` gate clause: when at least one pattern was generated the
title must ILIKE-match one of them; when no pattern exists no gate clause is
added (the dead "safety check" branch for a non-empty query with no clauses is
unreachable, since a non-empty query always contributes its own phrase
pattern). -/
def gateOK (expand : List String → List String) (p : SearchParams)
    (d : JobPosting) : Bool :=
  gatePatterns expand p == [] ||
    (gatePatterns expand p).any (fun pat => ilike (dataText d.data "job_title") pat)

/-- The location clause: `(jp.data->>'job_location') ILIKE :locFilter`, only
added when a location was provided. -/
def locOK (p : SearchParams) (d : JobPosting) : Bool :=
  rawLocationOf p == "" || ilike (dataText d.data "job_location") (rawLocationOf p)

/-- The email-availability clause.  Require-present ANDs in
`resume_email IS NOT NULL` and `resume_email != ''` (the `isEmailAvailable`
flag is not consulted); require-absent is the disjunction
`isEmailAvailable IS FALSE OR IS NULL OR resume_email IS NULL OR = ''`. -/
def emailOK (p : SearchParams) (d : JobPosting) : Bool :=
  match p.isEmailAvailable with
  | none => true
  | some true =>
    match d.resume_email with
    | some s => s != ""
    | none => false
  | some false =>
    d.isEmailAvailable == some false || d.isEmailAvailable == none ||
      d.resume_email == none || d.resume_email == some ""

/-- The full WHERE predicate: all generated conditions ANDed. -/
def matchesFilter (expand : List String → List String) (p : SearchParams)
    (d : JobPosting) : Bool :=
  gateOK expand p d && locOK p d && emailOK p d

/-- The matching set: empty when the guard short-circuits, otherwise the rows
satisfying the WHERE predicate (in store order). -/
def matchedDocs (expand : List String → List String) (p : SearchParams)
    (store : List JobPosting) : List JobPosting :=
  if guardEmpty p then [] else store.filter (fun d => matchesFilter expand p d)

/-- `countQb.getCount()`: the WHERE predicate evaluated alone over the whole
store, with no score expression and no limit/offset. -/
def totalCountOf (expand : List String → List String) (p : SearchParams)
    (store : List JobPosting) : Nat :=
  (matchedDocs expand p store).length

/-- `CAST(jp.data->>'Suitability Score' AS NUMERIC)` for the ORDER BY,
NULL when the key is absent or its text does not parse as a number. -/
def suitCast (d : JobPosting) : Option Int :=
  match dataText d.data "Suitability Score" with
  | some s => parseIntStr s
  | none => none

/-- DESC NULLS LAST comparison of the suitability key: `x` may come
before-or-with `y` when `x` is the larger value, and NULL sorts after every
value. -/
def suitRankLE : Option Int → Option Int → Bool
  | some i, some j => decide (j ≤ i)
  | some _, none => true
  | none, some _ => false
  | none, none => true

/-- The ORDER BY of the page query: `created_at DESC`, then
`Suitability Score DESC NULLS LAST`.  `pageLE a b` says row `a` may be
emitted before-or-with row `b`. -/
def pageLE (a b : JobPosting) : Bool :=
  decide (b.created_at < a.created_at) ||
    (decide (a.created_at = b.created_at) &&
      suitRankLE (suitCast a) (suitCast b))

/-- `pageLE` as a relation, for sorting lemmas. -/
def PageLE (a b : JobPosting) : Prop :=
  pageLE a b = true

instance : DecidableRel PageLE :=
  fun a b => inferInstanceAs (Decidable (pageLE a b = true))

/-- A canonical row order satisfying the ORDER BY (the database is free to
return any order consistent with the two sort keys; `ValidPageOrder` below
captures that freedom). -/
def sortedMatches (expand : List String → List String) (p : SearchParams)
    (store : List JobPosting) : List JobPosting :=
  List.insertionSort PageLE (matchedDocs expand p store)

/-- Any row sequence the database may return for the page query before
windowing: a permutation of the matching set that is sorted by the ORDER BY
keys. -/
def ValidPageOrder (expand : List String → List String) (p : SearchParams)
    (store : List JobPosting) (l : List JobPosting) : Prop :=
  l.Perm (matchedDocs expand p store) ∧ l.Pairwise PageLE

/-- No two rows of `l` are tied on both ORDER BY keys. -/
def NoTies (l : List JobPosting) : Prop :=
  l.Pairwise (fun a b => ¬(PageLE a b ∧ PageLE b a))

/-- The single score expression of the SELECT, translated clause by clause in
the order the service pushes them: raw-phrase title hit 5; per expanded token
title 3, function 2, summary 1, location 4; raw-location hit 6. -/
def scoreOf (expand : List String → List String) (p : SearchParams)
    (d : JobPosting) : Int :=
  (if rawQueryOf p ≠ "" then
    (if ilike (dataText d.data "job_title") (rawQueryOf p) = true then 5 else 0)
   else 0) +
  ((tokensOf expand p).map (fun t =>
    (if ilike (dataText d.data "job_title") t = true then 3 else 0) +
    (if ilike (dataText d.data "job_function") t = true then 2 else 0) +
    (if ilike (dataText d.data "job_summary") t = true then 1 else 0) +
    (if ilike (dataText d.data "job_location") t = true then 4 else 0))).sum +
  (if rawLocationOf p ≠ "" then
    (if ilike (dataText d.data "job_location") (rawLocationOf p) = true then 6
     else 0)
   else 0)

/-- The page the service returns, paired with each row's raw score:
the canonical ORDER BY order, windowed by OFFSET then LIMIT. -/
def pageEntries (expand : List String → List String) (p : SearchParams)
    (store : List JobPosting) : List (JobPosting × Int) :=
  (((sortedMatches expand p store).drop (clampOffset p.offset).toNat).take
      (clampLimit p.limit).toNat).map
    (fun d => (d, scoreOf expand p d))

/-- `suitabilityScoreNum` of the result mapping: the stored value when it is
a number, a parse of it when it is a string, null otherwise. -/
def suitParsed (d : JobPosting) : Option Int :=
  match d.data.lookup "Suitability Score" with
  | some (JsonVal.num n) => some n
  | some (JsonVal.str s) => parseIntStr s
  | _ => none

/-- The keys the result mapping writes before spreading the document data. -/
def reservedKeys : List String :=
  ["id", "job_posting_id", "score", "suitabilityScore", "isEmailAvailable",
   "resume_email"]

/-- One returned record, as the ordered key/value writes of the object
literal: the reserved keys first, then the spread of `e.data` (whose entries,
being written last, override earlier writes of the same key). -/
def assembleRecord (d : JobPosting) (score : Int) : List (String × JsonVal) :=
  [("id", JsonVal.str d.id),
   ("job_posting_id", JsonVal.str d.job_posting_id),
   ("score", JsonVal.num score),
   ("suitabilityScore",
     match suitParsed d with
     | some n => JsonVal.num n
     | none => JsonVal.null),
   ("isEmailAvailable", JsonVal.boolean (d.isEmailAvailable.getD false)),
   ("resume_email",
     match d.resume_email with
     | some s => JsonVal.str s
     | none => JsonVal.null)] ++ d.data

/-- Reading a key of an assembled record with JavaScript semantics: the last
write wins. -/
def recordGet (r : List (String × JsonVal)) (k : String) : Option JsonVal :=
  r.reverse.lookup k

/-- The value `searchJobs` resolves to: the exact total match count and the
assembled page. -/
structure SearchResult where
  count : Nat
  results : List (List (String × JsonVal))
deriving DecidableEq, Repr

/-- `searchJobs(params)` over a store snapshot, parameterised by the synonym
expander. -/
def searchJobs (expand : List String → List String) (p : SearchParams)
    (store : List JobPosting) : SearchResult :=
  { count := totalCountOf expand p store,
    results := (pageEntries expand p store).map (fun e => assembleRecord e.1 e.2) }

theorem mem_addIfAbsent {x t : String} {acc : List String} :
    x ∈ addIfAbsent acc t ↔ x ∈ acc ∨ x = t := by
  by_cases h : t ∈ acc
  · simp only [addIfAbsent, if_pos h]
    exact ⟨Or.inl, fun hx => hx.elim id (fun e => e ▸ h)⟩
  · simp [addIfAbsent, if_neg h]

theorem nodup_addIfAbsent {t : String} {acc : List String} (h : acc.Nodup) :
    (addIfAbsent acc t).Nodup := by
  by_cases ht : t ∈ acc
  · simpa [addIfAbsent, if_pos ht] using h
  · simp [addIfAbsent, if_neg ht, List.nodup_append, h, ht]

theorem mem_foldl_condAdd (p : String → Bool) :
    ∀ (l acc : List String) (x : String),
      x ∈ l.foldl (fun a t => if p t then addIfAbsent a t else a) acc ↔
        x ∈ acc ∨ (x ∈ l ∧ p x = true) := by
  intro l
  induction l with
  | nil => simp
  | cons t ts ih =>
    intro acc x
    simp only [List.foldl_cons]
    rw [ih]
    by_cases hp : p t = true
    · simp only [if_pos hp, mem_addIfAbsent]
      constructor
      · rintro ((hx | rfl) | ⟨hxs, hpx⟩)
        · exact Or.inl hx
        · exact Or.inr ⟨List.mem_cons_self _ _, hp⟩
        · exact Or.inr ⟨List.mem_cons_of_mem _ hxs, hpx⟩
      · rintro (hx | ⟨hxc, hpx⟩)
        · exact Or.inl (Or.inl hx)
        · rcases List.mem_cons.mp hxc with rfl | hxs
          · exact Or.inl (Or.inr rfl)
          · exact Or.inr ⟨hxs, hpx⟩
    · simp only [if_neg hp]
      constructor
      · rintro (hx | ⟨hxs, hpx⟩)
        · exact Or.inl hx
        · exact Or.inr ⟨List.mem_cons_of_mem _ hxs, hpx⟩
      · rintro (hx | ⟨hxc, hpx⟩)
        · exact Or.inl hx
        · rcases List.mem_cons.mp hxc with rfl | hxs
          · exact absurd hpx hp
          · exact Or.inr ⟨hxs, hpx⟩

theorem nodup_foldl_condAdd (p : String → Bool) :
    ∀ (l acc : List String), acc.Nodup →
      (l.foldl (fun a t => if p t then addIfAbsent a t else a) acc).Nodup := by
  intro l
  induction l with
  | nil => exact fun acc h => h
  | cons t ts ih =>
    intro acc h
    simp only [List.foldl_cons]
    by_cases hp : p t = true
    · exact ih _ (by simpa [if_pos hp] using nodup_addIfAbsent h)
    · simpa [if_neg hp] using ih _ h

theorem mem_foldl_addIfAbsent :
    ∀ (ts acc : List String) (x : String),
      x ∈ ts.foldl addIfAbsent acc ↔ x ∈ acc ∨ x ∈ ts := by
  intro ts
  induction ts with
  | nil => simp
  | cons t ts ih =>
    intro acc x
    simp only [List.foldl_cons]
    rw [ih, mem_addIfAbsent]
    constructor
    · rintro ((hx | rfl) | hxs)
      · exact Or.inl hx
      · exact Or.inr (List.mem_cons_self _ _)
      · exact Or.inr (List.mem_cons_of_mem _ hxs)
    · rintro (hx | hxc)
      · exact Or.inl (Or.inl hx)
      · rcases List.mem_cons.mp hxc with rfl | hxs
        · exact Or.inl (Or.inr rfl)
        · exact Or.inr hxs

theorem nodup_foldl_addIfAbsent :
    ∀ (ts acc : List String), acc.Nodup → (ts.foldl addIfAbsent acc).Nodup := by
  intro ts
  induction ts with
  | nil => exact fun acc h => h
  | cons t ts ih => exact fun acc h => ih _ (nodup_addIfAbsent h)

theorem mem_foldl_special (q : String) :
    ∀ (maps : List (String × List String)) (acc : List String) (x : String),
      x ∈ maps.foldl
          (fun a kv => if strContains q kv.1 then kv.2.foldl addIfAbsent a else a)
          acc ↔
        x ∈ acc ∨ ∃ kv ∈ maps, strContains q kv.1 = true ∧ x ∈ kv.2 := by
  intro maps
  induction maps with
  | nil => simp
  | cons kv kvs ih =>
    intro acc x
    simp only [List.foldl_cons]
    by_cases h : strContains q kv.1 = true
    · rw [if_pos h, ih, mem_foldl_addIfAbsent]
      constructor
      · rintro ((hx | hx2) | ⟨kv2, hm, hc, hx2⟩)
        · exact Or.inl hx
        · exact Or.inr ⟨kv, List.mem_cons_self _ _, h, hx2⟩
        · exact Or.inr ⟨kv2, List.mem_cons_of_mem _ hm, hc, hx2⟩
      · rintro (hx | ⟨kv2, hm, hc, hx2⟩)
        · exact Or.inl (Or.inl hx)
        · rcases List.mem_cons.mp hm with rfl | hms
          · exact Or.inl (Or.inr hx2)
          · exact Or.inr ⟨kv2, hms, hc, hx2⟩
    · rw [if_neg h, ih]
      constructor
      · rintro (hx | ⟨kv2, hm, hc, hx2⟩)
        · exact Or.inl hx
        · exact Or.inr ⟨kv2, List.mem_cons_of_mem _ hm, hc, hx2⟩
      · rintro (hx | ⟨kv2, hm, hc, hx2⟩)
        · exact Or.inl hx
        · rcases List.mem_cons.mp hm with rfl | hms
          · exact absurd hc h
          · exact Or.inr ⟨kv2, hms, hc, hx2⟩

theorem nodup_foldl_special (q : String) :
    ∀ (maps : List (String × List String)) (acc : List String), acc.Nodup →
      (maps.foldl
          (fun a kv => if strContains q kv.1 then kv.2.foldl addIfAbsent a else a)
          acc).Nodup := by
  intro maps
  induction maps with
  | nil => exact fun acc h => h
  | cons kv kvs ih =>
    intro acc h
    simp only [List.foldl_cons]
    by_cases hc : strContains q kv.1 = true
    · exact ih _ (by rw [if_pos hc]; exact nodup_foldl_addIfAbsent _ _ h)
    · rw [if_neg hc]; exact ih _ h

theorem foldl_condAdd_of_none (p : String → Bool) :
    ∀ (l acc : List String), (∀ t ∈ l, p t = false) →
      l.foldl (fun a t => if p t then addIfAbsent a t else a) acc = acc := by
  intro l
  induction l with
  | nil => exact fun acc _ => rfl
  | cons t ts ih =>
    intro acc h
    simp only [List.foldl_cons,
      if_neg (by simp [h t (List.mem_cons_self _ _)] : ¬p t = true)]
    exact ih acc fun u hu => h u (List.mem_cons_of_mem _ hu)

theorem foldl_special_of_none (q : String) :
    ∀ (maps : List (String × List String)) (acc : List String),
      (∀ kv ∈ maps, strContains q kv.1 = false) →
      maps.foldl
          (fun a kv => if strContains q kv.1 then kv.2.foldl addIfAbsent a else a)
          acc = acc := by
  intro maps
  induction maps with
  | nil => exact fun acc _ => rfl
  | cons kv kvs ih =>
    intro acc h
    simp only [List.foldl_cons,
      if_neg (by simp [h kv (List.mem_cons_self _ _)] : ¬strContains q kv.1 = true)]
    exact ih acc fun u hu => h u (List.mem_cons_of_mem _ hu)

theorem subMatch_nil : ∀ hay : List Char, subMatch [] hay = true := by
  intro hay
  cases hay <;> simp [subMatch, leadMatch]

theorem keywordHit_empty_query (t : String) :
    keywordHit (jsSplitWS "") t = false := rfl

theorem JOB_TITLES_nodup : JOB_TITLES.Nodup := by decide

/-- C9 (counterexample): for the empty query, `findRelatedJobTitles` does not
return the empty set — the direct-substring rule matches the empty string
against every canonical title, so the whole catalogue is returned. -/
theorem relatedTitles_empty_query_cex :
    findRelatedJobTitles "" = JOB_TITLES ∧ findRelatedJobTitles "" ≠ [] := by
  constructor <;> decide

/-- C9 (amended): `findRelatedJobTitles` returns the deduplicated union of
direct substring matches, keyword matches for whitespace-split keywords of
length at least 3, and special-mapping matches; a query for which none of the
three kinds matches yields the empty set, but the empty (or whitespace-only)
query direct-matches every canonical title and returns the full catalogue. -/
theorem relatedTitles_union (q : String) :
    (∀ t, t ∈ findRelatedJobTitles q ↔
        (t ∈ JOB_TITLES ∧ strContains (lowerStr t) (trimStr (lowerStr q)) = true) ∨
        (t ∈ JOB_TITLES ∧ keywordHit (jsSplitWS (trimStr (lowerStr q))) t = true) ∨
        (∃ kv ∈ SPECIAL_MAPPINGS,
          strContains (trimStr (lowerStr q)) kv.1 = true ∧ t ∈ kv.2)) ∧
    (findRelatedJobTitles q).Nodup ∧
    (trimStr (lowerStr q) = "" → findRelatedJobTitles q = JOB_TITLES) := by
  refine ⟨fun t => ?_, ?_, fun hq => ?_⟩
  · simp only [findRelatedJobTitles]
    rw [mem_foldl_special, mem_foldl_condAdd, List.mem_filter]
    tauto
  · simp only [findRelatedJobTitles]
    exact nodup_foldl_special _ _ _
      (nodup_foldl_condAdd _ _ _ (JOB_TITLES_nodup.filter _))
  · simp only [findRelatedJobTitles, hq]
    rw [show List.filter (fun t => strContains (lowerStr t) "") JOB_TITLES
          = JOB_TITLES from
        List.filter_eq_self.mpr (fun a _ => subMatch_nil _)]
    rw [foldl_condAdd_of_none _ _ _ (fun t _ => keywordHit_empty_query t)]
    exact foldl_special_of_none _ _ _ (by decide)

/-- Witness for the amended C9 statement at a concrete query. -/
theorem relatedTitles_union_w :
    "Registered Nurse" ∈ findRelatedJobTitles "nurse" :=
  ((relatedTitles_union "nurse").1 "Registered Nurse").mpr
    (Or.inl ⟨by decide, by decide⟩)

/-- A concrete row used by several witness instantiations. -/
def wDoc : JobPosting :=
  { id := "w1", job_posting_id := "jp1",
    data := [("job_title", JsonVal.str "Registered Nurse"),
             ("job_location", JsonVal.str "Seattle, WA")],
    isEmailAvailable := some true, resume_email := some "hr@example.com",
    created_at := 3 }

/-- C6: when the trimmed query text is empty, the trimmed location is empty
and the email filter is unset, the engine returns total count 0 and an empty
item list; the result is the same for every store, reflecting that the
service returns before building any store query. -/
theorem searchJobs_empty_selectors (expand : List String → List String)
    (p : SearchParams) (store : List JobPosting)
    (hq : rawQueryOf p = "") (hl : rawLocationOf p = "")
    (he : p.isEmailAvailable = none) :
    searchJobs expand p store = { count := 0, results := [] } := by
  have hg : guardEmpty p = true := by
    simp [guardEmpty, hq, hl, he]
  simp [searchJobs, totalCountOf, pageEntries, sortedMatches, matchedDocs, hg,
    List.insertionSort]

/-- Witness for C6 at a concrete whitespace-only query and non-empty store. -/
theorem searchJobs_empty_selectors_w :
    searchJobs (fun t => t) { query := some "   " } [wDoc] =
      { count := 0, results := [] } :=
  searchJobs_empty_selectors (fun t => t) { query := some "   " } [wDoc]
    (by decide) (by decide) rfl

/-- C8: the engine works with the clamped values `min(max(limit, 1), 100)`
and `max(offset, 0)`: any search equals the same search with the clamped
values supplied explicitly, the clamped limit always lies in `[1, 100]`, and
the clamped offset is non-negative; out-of-range requests are never rejected
(`searchJobs` is total and returns an ordinary result for them). -/
theorem searchJobs_clamps_limit_offset (expand : List String → List String)
    (p : SearchParams) (store : List JobPosting) :
    searchJobs expand p store =
      searchJobs expand
        { p with limit := some (clampLimit p.limit),
                 offset := some (clampOffset p.offset) } store ∧
    1 ≤ clampLimit p.limit ∧ clampLimit p.limit ≤ 100 ∧
    0 ≤ clampOffset p.offset := by
  refine ⟨?_, ?_, ?_, ?_⟩
  · have hl : clampLimit (some (clampLimit p.limit)) = clampLimit p.limit := by
      simp only [clampLimit, Option.getD_some]
      omega
    have ho : clampOffset (some (clampOffset p.offset)) = clampOffset p.offset := by
      simp only [clampOffset, Option.getD_some]
      omega
    simp only [searchJobs, pageEntries, hl, ho]
    rfl
  · simp only [clampLimit]; omega
  · simp only [clampLimit]; omega
  · simp only [clampOffset]; omega

/-- C2: for fixed selectors and a fixed store, the returned total count is
the same for every limit and offset, and (whenever the engine does not
short-circuit) it equals the number of rows of the whole store satisfying the
WHERE filter alone — it is not derived from the length of the returned page. -/
theorem searchJobs_total_count_filter_only (expand : List String → List String)
    (p : SearchParams) (store : List JobPosting) (l o : Option Int) :
    (searchJobs expand { p with limit := l, offset := o } store).count =
      (searchJobs expand p store).count ∧
    (guardEmpty p = false →
      (searchJobs expand p store).count =
        (store.filter (fun d => matchesFilter expand p d)).length) := by
  constructor
  · rfl
  · intro hg
    simp [searchJobs, totalCountOf, matchedDocs, hg]

/-- Witness for C2 at a concrete query, store, and two pagination settings. -/
theorem searchJobs_total_count_filter_only_w :
    (searchJobs (fun t => t)
        { query := some "nurse", limit := some 1, offset := some 7 }
        [wDoc]).count =
      (searchJobs (fun t => t) { query := some "nurse" } [wDoc]).count ∧
    (searchJobs (fun t => t) { query := some "nurse" } [wDoc]).count =
      ([wDoc].filter
          (fun d => matchesFilter (fun t => t) { query := some "nurse" } d)).length :=
  ⟨(searchJobs_total_count_filter_only (fun t => t) { query := some "nurse" }
      [wDoc] (some 1) (some 7)).1,
   (searchJobs_total_count_filter_only (fun t => t) { query := some "nurse" }
      [wDoc] (some 1) (some 7)).2 (by decide)⟩

theorem pageEntries_mem {expand : List String → List String}
    {p : SearchParams} {store : List JobPosting} {d : JobPosting} {s : Int}
    (h : (d, s) ∈ pageEntries expand p store) :
    d ∈ matchedDocs expand p store ∧ s = scoreOf expand p d := by
  simp only [pageEntries, List.mem_map] at h
  obtain ⟨d2, hd2, heq⟩ := h
  cases heq
  refine ⟨?_, rfl⟩
  have h1 := List.take_subset _ _ hd2
  have h2 := List.drop_subset _ _ h1
  exact (List.mem_insertionSort _).mp h2

theorem matchedDocs_mem {expand : List String → List String}
    {p : SearchParams} {store : List JobPosting} {d : JobPosting}
    (h : d ∈ matchedDocs expand p store) :
    d ∈ store ∧ matchesFilter expand p d = true := by
  by_cases hg : guardEmpty p = true
  · simp [matchedDocs, hg] at h
  · simp only [matchedDocs, if_neg hg, List.mem_filter] at h
    exact h

/-- C1: for every search whose trimmed query text is non-empty, every
document of the returned page passes the mandatory title gate: its job_title
text contains the raw query, or one of the related titles, or one of the
expanded tokens, as a case-insensitive substring.  (Contrapositively, a
document with no title match is excluded no matter how its other fields
match.) -/
theorem searchJobs_title_gate (expand : List String → List String)
    (p : SearchParams) (store : List JobPosting) (d : JobPosting) (s : Int)
    (hq : rawQueryOf p ≠ "") (h : (d, s) ∈ pageEntries expand p store) :
    ilike (dataText d.data "job_title") (rawQueryOf p) = true ∨
    (∃ t ∈ relatedOf p, ilike (dataText d.data "job_title") t = true) ∨
    (∃ t ∈ tokensOf expand p, ilike (dataText d.data "job_title") t = true) := by
  obtain ⟨hmem, -⟩ := pageEntries_mem h
  obtain ⟨-, hf⟩ := matchedDocs_mem hmem
  have hgate : gateOK expand p d = true := by
    simp only [matchesFilter, Bool.and_eq_true] at hf
    exact hf.1.1
  have hne : gatePatterns expand p ≠ [] := by
    simp [gatePatterns, hq]
  simp only [gateOK, Bool.or_eq_true] at hgate
  rcases hgate with hnil | hany
  · exact absurd (eq_of_beq hnil) hne
  · obtain ⟨pat, hp, hil⟩ := List.any_eq_true.mp hany
    simp only [gatePatterns, if_pos hq, List.append_assoc, List.mem_append,
      List.mem_singleton] at hp
    rcases hp with rfl | hp | hp
    · exact Or.inl hil
    · exact Or.inr (Or.inl ⟨pat, hp, hil⟩)
    · exact Or.inr (Or.inr ⟨pat, hp, hil⟩)

/-- Witness for C1: a nurse query against the one-row store returns the row,
witnessing the gate disjunction. -/
theorem searchJobs_title_gate_w :
    ilike (dataText wDoc.data "job_title")
        (rawQueryOf { query := some "nurse" }) = true ∨
    (∃ t ∈ relatedOf { query := some "nurse" },
      ilike (dataText wDoc.data "job_title") t = true) ∨
    (∃ t ∈ tokensOf (fun t => t) { query := some "nurse" },
      ilike (dataText wDoc.data "job_title") t = true) :=
  searchJobs_title_gate (fun t => t) { query := some "nurse" } [wDoc] wDoc
    (scoreOf (fun t => t) { query := some "nurse" } wDoc)
    (by decide) (by decide)

/-- C5: each returned document's score is exactly the weighted sum — 5 when
the title contains the raw query phrase (a clause emitted only when query
text was provided), plus, per expanded token independently, 3 for a title
hit, 4 for a location-field hit, 2 for a function-field hit and 1 for a
summary-field hit, plus 6 when the location field contains the raw location
(clause emitted only when a location was provided); and scoring never gates:
any document that satisfies the mandatory filter — including one scoring 0 —
appears, namely on the one-item page at some offset. -/
theorem searchJobs_score_weights (expand : List String → List String)
    (p : SearchParams) (store : List JobPosting) (d : JobPosting) (s : Int) :
    ((d, s) ∈ pageEntries expand p store →
      s = (if rawQueryOf p ≠ "" ∧
              ilike (dataText d.data "job_title") (rawQueryOf p) = true
           then 5 else 0) +
          ((tokensOf expand p).map (fun t =>
            (if ilike (dataText d.data "job_title") t = true then 3 else 0) +
            (if ilike (dataText d.data "job_location") t = true then 4 else 0) +
            (if ilike (dataText d.data "job_function") t = true then 2 else 0) +
            (if ilike (dataText d.data "job_summary") t = true then 1
             else 0))).sum +
          (if rawLocationOf p ≠ "" ∧
              ilike (dataText d.data "job_location") (rawLocationOf p) = true
           then 6 else 0)) ∧
    (d ∈ store → matchesFilter expand p d = true → guardEmpty p = false →
      ∃ o : Int, (d, scoreOf expand p d) ∈
        pageEntries expand { p with limit := some 1, offset := some o } store) := by
  constructor
  · intro h
    obtain ⟨-, hs⟩ := pageEntries_mem h
    subst hs
    simp only [scoreOf]
    congr 1
    · congr 1
      · by_cases hq : rawQueryOf p ≠ "" <;>
          by_cases hil : ilike (dataText d.data "job_title") (rawQueryOf p) = true <;>
          simp [hq, hil]
      · refine congrArg List.sum (List.map_congr_left fun t _ => ?_)
        ring
    · by_cases hl : rawLocationOf p ≠ "" <;>
        by_cases hil : ilike (dataText d.data "job_location") (rawLocationOf p) = true <;>
        simp [hl, hil]
  · intro hd hf hg
    have hmem : d ∈ matchedDocs expand p store := by
      simp only [matchedDocs, if_neg (by simp [hg] : ¬guardEmpty p = true),
        List.mem_filter]
      exact ⟨hd, hf⟩
    have hmem2 : d ∈ sortedMatches expand p store :=
      (List.mem_insertionSort _).mpr hmem
    obtain ⟨l1, l2, hsp⟩ := List.append_of_mem hmem2
    refine ⟨(l1.length : Int), ?_⟩
    have hoff : (clampOffset (some ((l1.length : Nat) : Int))).toNat = l1.length := by
      simp only [clampOffset, Option.getD_some]
      omega
    have hlim : (clampLimit (some 1)).toNat = 1 := by decide
    simp only [pageEntries, hoff, hlim,
      show sortedMatches expand
          { p with limit := some 1, offset := some ((l1.length : Nat) : Int) } store
        = sortedMatches expand p store from rfl, hsp,
      List.drop_left, List.take_succ_cons, List.take_zero, List.map_cons,
      List.map_nil, List.mem_singleton]
    rfl

/-- Witness for C5: the filtered nurse row appears on a one-item page at a
concrete offset, carrying its computed score. -/
theorem searchJobs_score_weights_w :
    ∃ o : Int, (wDoc, scoreOf (fun t => t) { query := some "nurse" } wDoc) ∈
      pageEntries (fun t => t)
        { query := some "nurse", limit := some 1, offset := some o } [wDoc] :=
  (searchJobs_score_weights (fun t => t) { query := some "nurse" } [wDoc]
      wDoc 0).2 (by decide) (by decide) (by decide)

/-- A row whose email flag is false/unset while its contact email is
non-empty. -/
def docC3 : JobPosting :=
  { id := "c3", job_posting_id := "jc3",
    data := [("job_title", JsonVal.str "Software Engineer")],
    isEmailAvailable := some false, resume_email := some "someone@js.org",
    created_at := 0 }

/-- C3 (counterexample): the require-present branch never consults the
has_contact_email flag — a document with the flag false but a non-empty
contact email is admitted, contradicting the claim that such a document is
excluded. -/
theorem emailPresent_flag_not_checked_cex :
    docC3.isEmailAvailable = some false ∧
    (docC3, 0) ∈
      pageEntries (fun t => t) { isEmailAvailable := some true } [docC3] ∧
    (searchJobs (fun t => t) { isEmailAvailable := some true } [docC3]).count
      = 1 := by
  refine ⟨rfl, by decide, rfl⟩

/-- C3 (amended): with the email filter set to require-present, a document is
admitted iff it passes the other selectors and its contact email is non-null
and non-empty; the has_contact_email flag is not consulted, so a document
with the flag true and an empty email string is excluded, while one with the
flag unset or false but a non-empty email is admitted. -/
theorem emailPresent_admission (expand : List String → List String)
    (p : SearchParams) (d : JobPosting) (hp : p.isEmailAvailable = some true) :
    matchesFilter expand p d = true ↔
      (gateOK expand p d = true ∧ locOK p d = true ∧
        ∃ s, d.resume_email = some s ∧ s ≠ "") := by
  simp only [matchesFilter, Bool.and_eq_true, emailOK, hp]
  constructor
  · rintro ⟨⟨hg, hl⟩, he⟩
    refine ⟨hg, hl, ?_⟩
    cases hre : d.resume_email with
    | none => rw [hre] at he; cases he
    | some s =>
      rw [hre] at he
      exact ⟨s, rfl, by simpa using he⟩
  · rintro ⟨hg, hl, s, hre, hs⟩
    refine ⟨⟨hg, hl⟩, ?_⟩
    rw [hre]
    simpa using hs

/-- Witness for the amended C3 statement at a concrete document. -/
theorem emailPresent_admission_w :
    matchesFilter (fun t => t) { isEmailAvailable := some true } docC3 = true ↔
      (gateOK (fun t => t) { isEmailAvailable := some true } docC3 = true ∧
        locOK { isEmailAvailable := some true } docC3 = true ∧
        ∃ s, docC3.resume_email = some s ∧ s ≠ "") :=
  emailPresent_admission (fun t => t) { isEmailAvailable := some true } docC3
    rfl

/-- A row with the email flag set but an empty contact email string. -/
def docC4 : JobPosting :=
  { id := "c4", job_posting_id := "jc4",
    data := [("job_title", JsonVal.str "Software Engineer")],
    isEmailAvailable := some true, resume_email := some "",
    created_at := 0 }

/-- C4 (counterexample): the flagged-but-empty-email document is excluded by
the require-present search yet returned by the require-absent search, so the
two branches do not both exclude it. -/
theorem email_branches_cex :
    docC4.isEmailAvailable = some true ∧ docC4.resume_email = some "" ∧
    (searchJobs (fun t => t) { isEmailAvailable := some true } [docC4]).count
      = 0 ∧
    (docC4, 0) ∈
      pageEntries (fun t => t) { isEmailAvailable := some false } [docC4] := by
  refine ⟨rfl, rfl, rfl, by decide⟩

/-- C4 (amended): a document with has_contact_email true and an empty contact
email string is excluded by the require-present branch but admitted by the
require-absent branch whenever it passes the other selectors — the branches
are not complements, yet only the require-present branch drops it. -/
theorem email_branches_empty_string (expand : List String → List String)
    (pP pA : SearchParams) (store : List JobPosting) (d : JobPosting)
    (hflag : d.isEmailAvailable = some true) (hres : d.resume_email = some "")
    (hpP : pP.isEmailAvailable = some true)
    (hpA : pA.isEmailAvailable = some false) :
    d ∉ matchedDocs expand pP store ∧
    (d ∈ store → gateOK expand pA d = true → locOK pA d = true →
      guardEmpty pA = false → d ∈ matchedDocs expand pA store) := by
  constructor
  · intro hmem
    obtain ⟨-, hf⟩ := matchedDocs_mem hmem
    simp [matchesFilter, emailOK, hpP, hres] at hf
  · intro hd hg hl hge
    simp only [matchedDocs, if_neg (by simp [hge] : ¬guardEmpty pA = true),
      List.mem_filter]
    refine ⟨hd, ?_⟩
    simp [matchesFilter, emailOK, hpA, hres, hg, hl]

/-- Witness for the amended C4 statement at a concrete document and concrete
require-present / require-absent searches. -/
theorem email_branches_empty_string_w :
    docC4 ∉ matchedDocs (fun t => t) { isEmailAvailable := some true } [docC4] ∧
    docC4 ∈ matchedDocs (fun t => t) { isEmailAvailable := some false } [docC4] :=
  ⟨(email_branches_empty_string (fun t => t) { isEmailAvailable := some true }
      { isEmailAvailable := some false } [docC4] docC4 rfl rfl rfl rfl).1,
   (email_branches_empty_string (fun t => t) { isEmailAvailable := some true }
      { isEmailAvailable := some false } [docC4] docC4 rfl rfl rfl rfl).2
     (by decide) (by decide) (by decide) (by decide)⟩

theorem lookup_append (k : String) :
    ∀ (l1 l2 : List (String × JsonVal)),
      (l1 ++ l2).lookup k =
        match l1.lookup k with
        | some v => some v
        | none => l2.lookup k := by
  intro l1
  induction l1 with
  | nil => intro l2; rfl
  | cons kv l1 ih =>
    intro l2
    obtain ⟨k1, v1⟩ := kv
    by_cases hk : (k == k1) = true
    · simp [List.lookup, hk]
    · simp only [List.cons_append, List.lookup, Bool.not_eq_true] at *
      simp [hk, ih]

/-- C10: every returned record is assembled by writing the reserved keys
(id, job_posting_id, score, suitabilityScore, isEmailAvailable with default
false, resume_email with default null) first and spreading the document's
stored data last, so for any stored key equal to a reserved key the stored
value overrides the computed/entity value when the record is read. -/
theorem searchJobs_assembly_override (expand : List String → List String)
    (p : SearchParams) (store : List JobPosting)
    (r : List (String × JsonVal))
    (h : r ∈ (searchJobs expand p store).results) :
    ∃ e ∈ pageEntries expand p store,
      r = assembleRecord e.1 e.2 ∧
      ∀ k v, k ∈ reservedKeys → e.1.data.reverse.lookup k = some v →
        recordGet r k = some v := by
  simp only [searchJobs, List.mem_map] at h
  obtain ⟨e, he, heq⟩ := h
  subst heq
  refine ⟨e, he, rfl, ?_⟩
  intro k v _ hv
  simp only [recordGet, assembleRecord, List.reverse_append]
  rw [lookup_append, hv]

/-- A row whose stored data collides with the reserved `score` key. -/
def docC10 : JobPosting :=
  { id := "c10", job_posting_id := "jc10",
    data := [("job_title", JsonVal.str "Registered Nurse"),
             ("score", JsonVal.str "stored-score")],
    isEmailAvailable := none, resume_email := none, created_at := 0 }

/-- Witness for C10: a concrete record returned by a concrete search, whose
stored `score` entry overrides the computed score on read. -/
theorem searchJobs_assembly_override_w :
    ∃ e ∈ pageEntries (fun t => t) { query := some "nurse" } [docC10],
      assembleRecord docC10
          (scoreOf (fun t => t) { query := some "nurse" } docC10)
        = assembleRecord e.1 e.2 ∧
      ∀ k v, k ∈ reservedKeys → e.1.data.reverse.lookup k = some v →
        recordGet
          (assembleRecord docC10
            (scoreOf (fun t => t) { query := some "nurse" } docC10)) k
          = some v :=
  searchJobs_assembly_override (fun t => t) { query := some "nurse" } [docC10]
    (assembleRecord docC10
      (scoreOf (fun t => t) { query := some "nurse" } docC10))
    (by decide)

theorem suitRankLE_total (x y : Option Int) :
    suitRankLE x y = true ∨ suitRankLE y x = true := by
  cases x <;> cases y <;> simp [suitRankLE] <;> omega

theorem suitRankLE_trans {x y z : Option Int} (h1 : suitRankLE x y = true)
    (h2 : suitRankLE y z = true) : suitRankLE x z = true := by
  cases x <;> cases y <;> cases z <;> simp [suitRankLE] at * <;> omega

instance : IsTotal JobPosting PageLE := by
  constructor
  intro a b
  simp only [PageLE, pageLE, Bool.or_eq_true, Bool.and_eq_true,
    decide_eq_true_eq]
  rcases Int.lt_trichotomy a.created_at b.created_at with h | h | h
  · right; left; exact h
  · rcases suitRankLE_total (suitCast a) (suitCast b) with hs | hs
    · left; right; exact ⟨h, hs⟩
    · right; right; exact ⟨h.symm, hs⟩
  · left; left; exact h

instance : IsTrans JobPosting PageLE := by
  constructor
  intro a b c h1 h2
  simp only [PageLE, pageLE, Bool.or_eq_true, Bool.and_eq_true,
    decide_eq_true_eq] at *
  rcases h1 with h1 | ⟨he1, hs1⟩ <;> rcases h2 with h2 | ⟨he2, hs2⟩
  · left; omega
  · left; omega
  · left; omega
  · right; exact ⟨by omega, suitRankLE_trans hs1 hs2⟩

theorem sortedPermUnique {α : Type} {R : α → α → Prop} :
    ∀ (l1 l2 : List α), l1.Perm l2 → l1.Pairwise R → l2.Pairwise R →
      l1.Pairwise (fun a b => ¬(R a b ∧ R b a)) → l1 = l2 := by
  intro l1
  induction l1 with
  | nil =>
    intro l2 hp _ _ _
    exact hp.nil_eq
  | cons a t1 ih =>
    intro l2 hp hs1 hs2 hnt
    cases l2 with
    | nil => exact absurd hp.eq_nil (by simp)
    | cons b t2 =>
      by_cases hab : a = b
      · subst hab
        rw [ih t2 hp.cons_inv (List.pairwise_cons.mp hs1).2
          (List.pairwise_cons.mp hs2).2 (List.pairwise_cons.mp hnt).2]
      · have hb1 : b ∈ t1 := by
          have hm := hp.symm.subset (List.mem_cons_self b t2)
          rcases List.mem_cons.mp hm with h | h
          · exact absurd h.symm hab
          · exact h
        have ha2 : a ∈ t2 := by
          have hm := hp.subset (List.mem_cons_self a t1)
          rcases List.mem_cons.mp hm with h | h
          · exact absurd h hab
          · exact h
        have hRab : R a b := (List.pairwise_cons.mp hs1).1 b hb1
        have hRba : R b a := (List.pairwise_cons.mp hs2).1 a ha2
        exact absurd ⟨hRab, hRba⟩ ((List.pairwise_cons.mp hnt).1 b hb1)

theorem chunksTake {α : Type} (L : Nat) :
    ∀ (j : Nat) (l : List α),
      (List.range j).flatMap (fun k => (l.drop (k * L)).take L)
        = l.take (j * L) := by
  intro j
  induction j with
  | zero => intro l; simp
  | succ n ih =>
    intro l
    rw [List.range_succ, List.flatMap_append, ih]
    simp only [List.flatMap_cons, List.flatMap_nil, List.append_nil]
    rw [Nat.succ_mul, List.take_add]

/-- C7 (amended): the page query orders rows by creation time descending,
tie-broken by the stored numeric relevance attribute descending with nulls
last, and stops there — no stable secondary key is appended.  Consequently,
whenever no two admitted rows are tied on both keys, every order the database
may return coincides with the canonical one and concatenating consecutive
pages (offset 0, L, 2L, …) yields exactly total_count rows with no duplicate
and no missing row; with ties the guarantee is forfeited (see the
counterexample). -/
theorem searchJobs_pagination_no_ties (expand : List String → List String)
    (p : SearchParams) (store : List JobPosting)
    (orders : Nat → List JobPosting) (L j : Nat)
    (hv : ∀ k, ValidPageOrder expand p store (orders k))
    (hnt : NoTies (matchedDocs expand p store))
    (hcov : (matchedDocs expand p store).length ≤ j * L) :
    (List.range j).flatMap (fun k => ((orders k).drop (k * L)).take L)
      = sortedMatches expand p store ∧
    (sortedMatches expand p store).length = totalCountOf expand p store ∧
    (sortedMatches expand p store).Pairwise PageLE ∧
    (store.Nodup → (sortedMatches expand p store).Nodup) := by
  have hperm : (sortedMatches expand p store).Perm (matchedDocs expand p store) :=
    List.perm_insertionSort _ _
  have hsorted : (sortedMatches expand p store).Pairwise PageLE :=
    List.sorted_insertionSort _ _
  have huniq : ∀ k, orders k = sortedMatches expand p store := by
    intro k
    obtain ⟨hkp, hks⟩ := hv k
    refine sortedPermUnique (orders k) _ (hkp.trans hperm.symm) hks hsorted ?_
    exact (List.Perm.pairwise_iff (fun h hc => h ⟨hc.2, hc.1⟩) hkp).mpr hnt
  refine ⟨?_, hperm.length_eq, hsorted, fun hnd => ?_⟩
  · have hfun : (fun k => ((orders k).drop (k * L)).take L)
        = (fun k => ((sortedMatches expand p store).drop (k * L)).take L) := by
      funext k
      rw [huniq k]
    rw [hfun, chunksTake]
    exact List.take_of_length_le (by rw [hperm.length_eq]; exact hcov)
  · have hmn : (matchedDocs expand p store).Nodup := by
      by_cases hg : guardEmpty p = true
      · simp [matchedDocs, hg]
      · simp only [matchedDocs, if_neg hg]
        exact hnd.filter _
    exact hperm.nodup_iff.mpr hmn

/-- Rows tied on both ORDER BY keys (same timestamp, both without a parseable
suitability value). -/
def docTieA : JobPosting :=
  { id := "ta", job_posting_id := "jta", data := [],
    isEmailAvailable := some false, resume_email := none, created_at := 0 }

/-- Second row of the tied pair. -/
def docTieB : JobPosting :=
  { id := "tb", job_posting_id := "jtb", data := [],
    isEmailAvailable := some false, resume_email := none, created_at := 0 }

/-- A search admitting both tied rows (require-absent email filter only). -/
def pTie : SearchParams :=
  { isEmailAvailable := some false }

/-- C7 (counterexample): with two admitted rows tied on both ORDER BY keys,
both orders of the pair are valid database answers; taking page 0 (limit 1)
from one valid order and page 1 from the other returns the first row twice
and the second row never, although the total count is 2 — so the claimed
stable-secondary-key tie-break and its no-duplicate/no-missing pagination
guarantee do not hold of the code. -/
theorem searchJobs_pagination_cex :
    ValidPageOrder (fun t => t) pTie [docTieA, docTieB] [docTieA, docTieB] ∧
    ValidPageOrder (fun t => t) pTie [docTieA, docTieB] [docTieB, docTieA] ∧
    totalCountOf (fun t => t) pTie [docTieA, docTieB] = 2 ∧
    docTieA ≠ docTieB ∧
    ([docTieA, docTieB].take 1 ++ ([docTieB, docTieA].drop 1).take 1)
      = [docTieA, docTieA] := by
  have hm : matchedDocs (fun t => t) pTie [docTieA, docTieB]
      = [docTieA, docTieB] := by decide
  have hAB : PageLE docTieA docTieB := by decide
  have hBA : PageLE docTieB docTieA := by decide
  refine ⟨⟨?_, ?_⟩, ⟨?_, ?_⟩, rfl, by decide, rfl⟩
  · rw [hm]
  · rw [List.pairwise_cons]
    refine ⟨?_, by simp⟩
    intro b hb
    obtain rfl := List.mem_singleton.mp hb
    exact hAB
  · rw [hm]
    exact List.Perm.swap _ _ _
  · rw [List.pairwise_cons]
    refine ⟨?_, by simp⟩
    intro b hb
    obtain rfl := List.mem_singleton.mp hb
    exact hBA

/-- Rows with distinct creation times, for the pagination witness. -/
def docOrdA : JobPosting :=
  { id := "oa", job_posting_id := "joa", data := [],
    isEmailAvailable := some false, resume_email := none, created_at := 5 }

/-- Older second row of the pagination witness. -/
def docOrdB : JobPosting :=
  { id := "ob", job_posting_id := "job", data := [],
    isEmailAvailable := some false, resume_email := none, created_at := 3 }

/-- Witness for the amended C7 statement: two rows with distinct timestamps,
pages of one row each, concatenated in order. -/
theorem searchJobs_pagination_no_ties_w :
    (List.range 2).flatMap
        (fun k => (([docOrdA, docOrdB]).drop (k * 1)).take 1)
      = sortedMatches (fun t => t) pTie [docOrdA, docOrdB] ∧
    (sortedMatches (fun t => t) pTie [docOrdA, docOrdB]).length
      = totalCountOf (fun t => t) pTie [docOrdA, docOrdB] ∧
    (sortedMatches (fun t => t) pTie [docOrdA, docOrdB]).Pairwise PageLE ∧
    ([docOrdA, docOrdB].Nodup →
      (sortedMatches (fun t => t) pTie [docOrdA, docOrdB]).Nodup) := by
  have hm : matchedDocs (fun t => t) pTie [docOrdA, docOrdB]
      = [docOrdA, docOrdB] := by decide
  refine searchJobs_pagination_no_ties (fun t => t) pTie [docOrdA, docOrdB]
    (fun _ => [docOrdA, docOrdB]) 1 2 (fun k => ⟨?_, ?_⟩) ?_ (by rw [hm]; decide)
  · rw [hm]
  · rw [List.pairwise_cons]
    refine ⟨?_, by simp⟩
    intro b hb
    obtain rfl := List.mem_singleton.mp hb
    decide
  · rw [NoTies, hm, List.pairwise_cons]
    refine ⟨?_, by simp⟩
    intro b hb
    obtain rfl := List.mem_singleton.mp hb
    decide
